import Mathlib

/-!
Verification of the distance-field object model of the `raymarcher` repository
(`src/objects.rs`).

The Rust code works over `f32` points and vectors from `nalgebra`
(`Point3<f32>`, `Vector3<f32>`).  We embed the geometry over the exact reals:
every arithmetic operation of the source (`+`, `-`, `*`, `/`, `abs`, `powi 2`,
`sqrt`, `norm`, `norm_squared`, `normalize`, `max`, `iamax`) is translated to
its exact real counterpart.  The single place where the source can produce a
non-finite `f32` value — the division by `sqrt(1 - cos²)` (and the interior
division `y² / ‖p‖²`) in `HorizontalPlane::distance_estimate` — is modelled by
returning `Option ℝ`, where `none` stands for a non-finite IEEE result
(`inf`/`NaN` arising from a zero divisor).  All other operations of the module
are total on their (real) inputs: no divisor can vanish and no square root
receives a negative argument, so they are embedded as plain `ℝ`-valued
functions.
-/

open Classical

/-- A 3-component vector, embedding both `na::Point3<f32>` and
`na::Vector3<f32>` (the source freely subtracts points to obtain vectors;
both are plain triples of scalars). -/
structure Vec3 where
  x : ℝ
  y : ℝ
  z : ℝ

instance : Sub Vec3 := ⟨fun a b => ⟨a.x - b.x, a.y - b.y, a.z - b.z⟩⟩

theorem Vec3.sub_def (a b : Vec3) : a - b = ⟨a.x - b.x, a.y - b.y, a.z - b.z⟩ := rfl

@[simp] theorem Vec3.sub_x (a b : Vec3) : (a - b).x = a.x - b.x := rfl
@[simp] theorem Vec3.sub_y (a b : Vec3) : (a - b).y = a.y - b.y := rfl
@[simp] theorem Vec3.sub_z (a b : Vec3) : (a - b).z = a.z - b.z := rfl

/-- `nalgebra`'s `norm_squared`: sum of the squares of the components. -/
def Vec3.normSq (v : Vec3) : ℝ := v.x ^ 2 + v.y ^ 2 + v.z ^ 2

/-- `nalgebra`'s `norm`: square root of the sum of squares. -/
noncomputable def Vec3.norm (v : Vec3) : ℝ := Real.sqrt v.normSq

/-- `nalgebra`'s `normalize`: componentwise division by the norm. -/
noncomputable def Vec3.normalize (v : Vec3) : Vec3 :=
  ⟨v.x / v.norm, v.y / v.norm, v.z / v.norm⟩

/-- Scalar multiplication of a vector, used to state `(p − c)/‖p − c‖`. -/
def Vec3.smul (a : ℝ) (v : Vec3) : Vec3 := ⟨a * v.x, a * v.y, a * v.z⟩

/-- `Vector3::zeros()`. -/
def Vec3.zeros : Vec3 := ⟨0, 0, 0⟩

/-- Indexed update `v[i] = a`, embedding `aligned[max_axis_index] = 1.0`. -/
def Vec3.setIdx (v : Vec3) (i : Nat) (a : ℝ) : Vec3 :=
  match i with
  | 0 => { v with x := a }
  | 1 => { v with y := a }
  | _ => { v with z := a }

/-- `nalgebra`'s `iamax`: the index of the component of greatest absolute
value.  The `nalgebra` implementation scans indices upward and replaces the
current maximum only on a strict `>` comparison, so the first index attaining
the maximum wins; this is transcribed by the nested conditionals. -/
noncomputable def Vec3.iamax (v : Vec3) : Nat :=
  if |v.y| > |v.x| then
    (if |v.z| > |v.y| then 2 else 1)
  else
    (if |v.z| > |v.x| then 2 else 0)

/-- Modelled from the spec: `crate::lighting::Color` is not part of the given
source (`src/objects.rs` only); the spec calls it "an opaque RGB-like value"
owned by each object.  We model it as a triple of scalars; the object model
never inspects it. -/
structure Color where
  r : ℝ
  g : ℝ
  b : ℝ

/-- Default of `Object::get_reflectance` in the trait definition. -/
def Object.default_reflectance : ℝ := 0

/-- `pub struct Sphere`. -/
structure Sphere where
  centre : Vec3
  radius : ℝ
  color : Color

/-- `Sphere::distance_estimate`: `(self.centre - point).norm() - self.radius`. -/
noncomputable def Sphere.distance_estimate (s : Sphere) (point : Vec3) : ℝ :=
  let r_centre := s.centre - point
  r_centre.norm - s.radius

/-- `Sphere::get_normal`: `(point - self.centre).normalize()`. -/
noncomputable def Sphere.get_normal (s : Sphere) (point : Vec3) : Vec3 :=
  (point - s.centre).normalize

/-- `Sphere::get_color_ref`. -/
def Sphere.get_color_ref (s : Sphere) : Color := s.color

/-- `Sphere::get_type_name`. -/
def Sphere.get_type_name (_ : Sphere) : String := "Sphere"

/-- `Sphere::get_reflectance`: overridden to `1.0`. -/
def Sphere.get_reflectance (_ : Sphere) : ℝ := 1

/-- `pub struct HorizontalPlane`. -/
structure HorizontalPlane where
  y : ℝ
  color : Color

/-- `HorizontalPlane::distance_estimate`:
`cos_ang_squared = point.y.powi(2) / Vector3::new(point.x, point.y, point.z).norm_squared()`,
result `(point.y - self.y).abs() / (1.0 - cos_ang_squared).sqrt()`.
In `f32` the result is non-finite exactly when a divisor vanishes: either the
query point is the origin (`norm_squared == 0`, giving `0/0 = NaN` which
propagates) or `cos_ang_squared == 1` (denominator `sqrt(0) = 0`, giving
`±inf` or `NaN`).  Those two cases are returned as `none`; otherwise
`1 - cos_ang_squared ∈ (0, 1]`, every operation is finite, and the exact real
value is returned. -/
noncomputable def HorizontalPlane.distance_estimate (pl : HorizontalPlane)
    (point : Vec3) : Option ℝ :=
  let nsq := (Vec3.mk point.x point.y point.z).normSq
  if nsq = 0 then none
  else
    let cos_ang_squared := point.y ^ 2 / nsq
    let den := Real.sqrt (1 - cos_ang_squared)
    if den = 0 then none
    else some (|point.y - pl.y| / den)

/-- `HorizontalPlane::get_normal`: the constant upward vector. -/
def HorizontalPlane.get_normal (_ : HorizontalPlane) (_ : Vec3) : Vec3 :=
  ⟨0, 1, 0⟩

/-- `HorizontalPlane::get_color_ref`. -/
def HorizontalPlane.get_color_ref (pl : HorizontalPlane) : Color := pl.color

/-- `HorizontalPlane::get_type_name`. -/
def HorizontalPlane.get_type_name (_ : HorizontalPlane) : String := "HorizontalPlane"

/-- `HorizontalPlane::get_reflectance`: overridden, still `0.0`. -/
def HorizontalPlane.get_reflectance (_ : HorizontalPlane) : ℝ := 0

/-- `pub struct AxisAlignedCube` (`size` is the half-extent per axis). -/
structure AxisAlignedCube where
  centre : Vec3
  size : ℝ
  color : Color

/-- `AxisAlignedCube::distance_estimate`: with `diff = point - centre`,
`sqrt(max(0,|diff.x|-size)² + max(0,|diff.y|-size)² + max(0,|diff.z|-size)²)`. -/
noncomputable def AxisAlignedCube.distance_estimate (c : AxisAlignedCube)
    (point : Vec3) : ℝ :=
  let diff := point - c.centre
  Real.sqrt
    (max 0 (|diff.x| - c.size) ^ 2 +
     max 0 (|diff.y| - c.size) ^ 2 +
     max 0 (|diff.z| - c.size) ^ 2)

/-- `AxisAlignedCube::get_normal`: normalise `point - centre`, take the index
of the largest absolute component, and return zeros with a `1.0` written at
that index. -/
noncomputable def AxisAlignedCube.get_normal (c : AxisAlignedCube)
    (point : Vec3) : Vec3 :=
  let norm_misaligned := (point - c.centre).normalize
  let max_axis_index := norm_misaligned.iamax
  Vec3.setIdx Vec3.zeros max_axis_index 1

/-- `AxisAlignedCube::get_color_ref`. -/
def AxisAlignedCube.get_color_ref (c : AxisAlignedCube) : Color := c.color

/-- `AxisAlignedCube::get_type_name`. -/
def AxisAlignedCube.get_type_name (_ : AxisAlignedCube) : String := "Cuboid"

/-- `AxisAlignedCube` has no `get_reflectance` override: it inherits the trait
default. -/
def AxisAlignedCube.get_reflectance (_ : AxisAlignedCube) : ℝ :=
  Object.default_reflectance

/-- Membership of a point in the (closed) cube, used to state that the cube's
distance estimate is the exact Euclidean distance to the box. -/
def AxisAlignedCube.contains (c : AxisAlignedCube) (q : Vec3) : Prop :=
  |q.x - c.centre.x| ≤ c.size ∧ |q.y - c.centre.y| ≤ c.size ∧
    |q.z - c.centre.z| ≤ c.size

/-! ### Basic facts about `Vec3` -/

theorem Vec3.normSq_nonneg (v : Vec3) : 0 ≤ v.normSq := by
  unfold Vec3.normSq; positivity

theorem Vec3.norm_nonneg (v : Vec3) : 0 ≤ v.norm := Real.sqrt_nonneg _

theorem Vec3.normSq_eq_zero_iff {v : Vec3} : v.normSq = 0 ↔ v = ⟨0, 0, 0⟩ := by
  constructor
  · intro h
    unfold Vec3.normSq at h
    have hx : v.x ^ 2 = 0 := by
      nlinarith [sq_nonneg v.x, sq_nonneg v.y, sq_nonneg v.z]
    have hy : v.y ^ 2 = 0 := by
      nlinarith [sq_nonneg v.x, sq_nonneg v.y, sq_nonneg v.z]
    have hz : v.z ^ 2 = 0 := by
      nlinarith [sq_nonneg v.x, sq_nonneg v.y, sq_nonneg v.z]
    cases v with
    | mk a b c =>
      simp only [Vec3.mk.injEq]
      exact ⟨pow_eq_zero_iff two_ne_zero |>.mp hx,
        pow_eq_zero_iff two_ne_zero |>.mp hy,
        pow_eq_zero_iff two_ne_zero |>.mp hz⟩
  · intro h; subst h; simp [Vec3.normSq]

theorem Vec3.normSq_pos {v : Vec3} (h : v ≠ ⟨0, 0, 0⟩) : 0 < v.normSq :=
  lt_of_le_of_ne (Vec3.normSq_nonneg v)
    (fun he => h (Vec3.normSq_eq_zero_iff.mp he.symm))

theorem Vec3.norm_pos {v : Vec3} (h : v ≠ ⟨0, 0, 0⟩) : 0 < v.norm :=
  Real.sqrt_pos.mpr (Vec3.normSq_pos h)

theorem Vec3.norm_sq_eq_normSq (v : Vec3) : v.norm ^ 2 = v.normSq :=
  Real.sq_sqrt (Vec3.normSq_nonneg v)

theorem Vec3.norm_sub_comm (a b : Vec3) : (a - b).norm = (b - a).norm := by
  unfold Vec3.norm Vec3.normSq
  simp only [Vec3.sub_x, Vec3.sub_y, Vec3.sub_z]
  ring_nf

theorem Vec3.sub_eq_zero_iff {a b : Vec3} : a - b = ⟨0, 0, 0⟩ ↔ a = b := by
  cases a with
  | mk ax ay az =>
    cases b with
    | mk bx bz bzz =>
      simp [Vec3.sub_def, Vec3.mk.injEq, sub_eq_zero]

theorem Vec3.norm_normalize {v : Vec3} (h : v ≠ ⟨0, 0, 0⟩) :
    v.normalize.norm = 1 := by
  have hn : 0 < v.norm := Vec3.norm_pos h
  have hsq : v.norm ^ 2 = v.normSq := Vec3.norm_sq_eq_normSq v
  unfold Vec3.norm Vec3.normalize Vec3.normSq
  have : (v.x / v.norm) ^ 2 + (v.y / v.norm) ^ 2 + (v.z / v.norm) ^ 2 = 1 := by
    field_simp
    rw [hsq]; unfold Vec3.normSq; ring
  rw [this, Real.sqrt_one]

theorem sqrt_eq_of_sq {b : ℝ} (a : ℝ) (hb : 0 ≤ b) (h : b ^ 2 = a) :
    Real.sqrt a = b := by rw [← h, Real.sqrt_sq hb]

/-! ### C1: sphere distance estimate -/

/-- C1: `Sphere::distance_estimate(p)` equals `‖centre − p‖ − radius`; it is
positive when `p` is strictly outside the sphere (`‖p − centre‖ > radius`),
negative when strictly inside, and exactly `0` on the surface. -/
theorem sphere_distance_estimate_spec (s : Sphere) (p : Vec3) :
    s.distance_estimate p = (s.centre - p).norm - s.radius ∧
    (s.radius < (p - s.centre).norm → 0 < s.distance_estimate p) ∧
    ((p - s.centre).norm < s.radius → s.distance_estimate p < 0) ∧
    ((p - s.centre).norm = s.radius → s.distance_estimate p = 0) := by
  have hde : s.distance_estimate p = (s.centre - p).norm - s.radius := rfl
  have hcomm : (s.centre - p).norm = (p - s.centre).norm :=
    Vec3.norm_sub_comm _ _
  refine ⟨hde, ?_, ?_, ?_⟩
  · intro h; rw [hde, hcomm]; linarith
  · intro h; rw [hde, hcomm]; linarith
  · intro h; rw [hde, hcomm, h]; ring

/-- Witness for C1 at the unit sphere centred at the origin and the outside
point `(2, 0, 0)`. -/
theorem sphere_distance_estimate_spec_witness :
    (1 : ℝ) < (Vec3.mk 2 0 0 - (Sphere.mk ⟨0, 0, 0⟩ 1 ⟨0, 0, 0⟩).centre).norm ∧
    0 < (Sphere.mk ⟨0, 0, 0⟩ 1 ⟨0, 0, 0⟩).distance_estimate ⟨2, 0, 0⟩ := by
  have hn : (Vec3.mk 2 0 0 - (Sphere.mk ⟨0, 0, 0⟩ 1 ⟨0, 0, 0⟩).centre).norm = 2 := by
    unfold Vec3.norm
    exact sqrt_eq_of_sq _ (by norm_num) (by unfold Vec3.normSq; norm_num)
  have hlt : (1 : ℝ) < (Vec3.mk 2 0 0 - (Sphere.mk ⟨0, 0, 0⟩ 1 ⟨0, 0, 0⟩).centre).norm := by
    rw [hn]; norm_num
  exact ⟨hlt, (sphere_distance_estimate_spec ⟨⟨0, 0, 0⟩, 1, ⟨0, 0, 0⟩⟩ ⟨2, 0, 0⟩).2.1 hlt⟩

/-! ### C7: plane normal -/

/-- C7: `HorizontalPlane::get_normal` returns the constant `(0, 1, 0)` for
every plane and every query point. -/
theorem plane_get_normal_const (pl : HorizontalPlane) (p : Vec3) :
    pl.get_normal p = ⟨0, 1, 0⟩ := rfl

/-! ### C8: reflectance constants -/

/-- C8: the reflectance of every `Sphere` is `1.0`, of every
`HorizontalPlane` is `0.0`, and of every `AxisAlignedCube` is `0.0`, the
latter inherited from the trait default `0.0`. -/
theorem get_reflectance_constants (s : Sphere) (pl : HorizontalPlane)
    (c : AxisAlignedCube) :
    s.get_reflectance = 1 ∧ pl.get_reflectance = 0 ∧
    c.get_reflectance = 0 ∧
    c.get_reflectance = Object.default_reflectance := ⟨rfl, rfl, rfl, rfl⟩

/-! ### Unfolding helpers -/

theorem plane_de_unfold (pl : HorizontalPlane) (p : Vec3) :
    pl.distance_estimate p =
      if p.normSq = 0 then none
      else if Real.sqrt (1 - p.y ^ 2 / p.normSq) = 0 then none
      else some (|p.y - pl.y| / Real.sqrt (1 - p.y ^ 2 / p.normSq)) := rfl

theorem cube_gn_unfold (c : AxisAlignedCube) (p : Vec3) :
    c.get_normal p = Vec3.setIdx Vec3.zeros ((p - c.centre).normalize).iamax 1 := rfl

/-! ### C3: plane distance estimate formula -/

/-- C3: wherever the `f32` computation is finite (both divisors are nonzero),
`HorizontalPlane::distance_estimate(p)` equals
`|p.y − y| / sqrt(1 − p.y² / ‖p‖²)` with `‖p‖` the norm of the position
vector from the origin. -/
theorem plane_distance_estimate_formula (pl : HorizontalPlane) (p : Vec3)
    (h0 : p.normSq ≠ 0)
    (hden : Real.sqrt (1 - p.y ^ 2 / p.normSq) ≠ 0) :
    pl.distance_estimate p =
      some (|p.y - pl.y| / Real.sqrt (1 - p.y ^ 2 / p.norm ^ 2)) := by
  rw [plane_de_unfold, if_neg h0, if_neg hden,
    Vec3.norm_sq_eq_normSq]

/-- Witness for C3 at the plane `y = 0` and the point `(3, 4, 0)`. -/
theorem plane_distance_estimate_formula_witness :
    (Vec3.mk 3 4 0).normSq ≠ 0 ∧
    Real.sqrt (1 - (Vec3.mk 3 4 0).y ^ 2 / (Vec3.mk 3 4 0).normSq) ≠ 0 ∧
    HorizontalPlane.distance_estimate ⟨0, ⟨0, 0, 0⟩⟩ ⟨3, 4, 0⟩ =
      some (|(Vec3.mk 3 4 0).y - (HorizontalPlane.mk 0 ⟨0, 0, 0⟩).y| /
        Real.sqrt (1 - (Vec3.mk 3 4 0).y ^ 2 / (Vec3.mk 3 4 0).norm ^ 2)) := by
  have hns : (Vec3.mk 3 4 0).normSq = 25 := by unfold Vec3.normSq; norm_num
  have h0 : (Vec3.mk 3 4 0).normSq ≠ 0 := by rw [hns]; norm_num
  have harg : 1 - (Vec3.mk 3 4 0).y ^ 2 / (Vec3.mk 3 4 0).normSq = 9 / 25 := by
    rw [hns]; show 1 - (4 : ℝ) ^ 2 / 25 = 9 / 25; norm_num
  have hsq : Real.sqrt (1 - (Vec3.mk 3 4 0).y ^ 2 / (Vec3.mk 3 4 0).normSq)
      = 3 / 5 := by
    rw [harg]; exact sqrt_eq_of_sq _ (by norm_num) (by norm_num)
  have hden : Real.sqrt (1 - (Vec3.mk 3 4 0).y ^ 2 / (Vec3.mk 3 4 0).normSq)
      ≠ 0 := by rw [hsq]; norm_num
  exact ⟨h0, hden, plane_distance_estimate_formula ⟨0, ⟨0, 0, 0⟩⟩ ⟨3, 4, 0⟩ h0 hden⟩

/-! ### C5: degenerate point on the vertical axis -/

/-- C5: for the plane at `y = 0` and the query point `(0, 5, 0)`,
`cos²(a)` evaluates to `1`, the denominator `sqrt(1 − cos²)` is `0`, and the
`f32` division therefore yields a non-finite value (modelled as `none`). -/
theorem plane_distance_estimate_degenerate :
    (Vec3.mk 0 5 0).y ^ 2 / (Vec3.mk 0 5 0).normSq = 1 ∧
    Real.sqrt (1 - (Vec3.mk 0 5 0).y ^ 2 / (Vec3.mk 0 5 0).normSq) = 0 ∧
    HorizontalPlane.distance_estimate ⟨0, ⟨0, 0, 0⟩⟩ ⟨0, 5, 0⟩ = none := by
  have hns : (Vec3.mk 0 5 0).normSq = 25 := by unfold Vec3.normSq; norm_num
  have hcos : (Vec3.mk 0 5 0).y ^ 2 / (Vec3.mk 0 5 0).normSq = 1 := by
    rw [hns]; show (5 : ℝ) ^ 2 / 25 = 1; norm_num
  have hsqrt : Real.sqrt (1 - (Vec3.mk 0 5 0).y ^ 2 / (Vec3.mk 0 5 0).normSq)
      = 0 := by
    rw [show 1 - (Vec3.mk 0 5 0).y ^ 2 / (Vec3.mk 0 5 0).normSq = 0 by
      rw [hcos]; ring]
    exact Real.sqrt_zero
  refine ⟨hcos, hsqrt, ?_⟩
  rw [plane_de_unfold, if_neg (by rw [hns]; norm_num),
    if_pos hsqrt]

/-! ### C10: finite plane estimates are non-negative -/

/-- C10: whenever `HorizontalPlane::distance_estimate` produces a finite
result, that result is non-negative: the numerator is an absolute value and
the denominator a (positive) square root, so no sign information survives. -/
theorem plane_distance_estimate_nonneg (pl : HorizontalPlane) (p : Vec3)
    (v : ℝ) (h : pl.distance_estimate p = some v) : 0 ≤ v := by
  rw [plane_de_unfold] at h
  by_cases h0 : p.normSq = 0
  · rw [if_pos h0] at h; exact absurd h (by simp)
  · rw [if_neg h0] at h
    by_cases hd : Real.sqrt (1 - p.y ^ 2 / p.normSq) = 0
    · rw [if_pos hd] at h; exact absurd h (by simp)
    · rw [if_neg hd] at h
      have hv : |p.y - pl.y| / Real.sqrt (1 - p.y ^ 2 / p.normSq) = v :=
        Option.some.inj h
      rw [← hv]
      exact div_nonneg (abs_nonneg _) (Real.sqrt_nonneg _)

/-- Witness for C10: the plane at `y = 0` queried at `(3, 4, 0)` returns the
finite value `20/3`, which is non-negative. -/
theorem plane_distance_estimate_nonneg_witness :
    HorizontalPlane.distance_estimate ⟨0, ⟨0, 0, 0⟩⟩ ⟨3, 4, 0⟩
      = some (20 / 3) ∧ (0 : ℝ) ≤ 20 / 3 := by
  have hns : (Vec3.mk 3 4 0).normSq = 25 := by unfold Vec3.normSq; norm_num
  have harg : 1 - (Vec3.mk 3 4 0).y ^ 2 / (Vec3.mk 3 4 0).normSq = 9 / 25 := by
    rw [hns]; show 1 - (4 : ℝ) ^ 2 / 25 = 9 / 25; norm_num
  have hsq : Real.sqrt (1 - (Vec3.mk 3 4 0).y ^ 2 / (Vec3.mk 3 4 0).normSq)
      = 3 / 5 := by
    rw [harg]; exact sqrt_eq_of_sq _ (by norm_num) (by norm_num)
  have hcomp : HorizontalPlane.distance_estimate ⟨0, ⟨0, 0, 0⟩⟩ ⟨3, 4, 0⟩
      = some (20 / 3) := by
    rw [plane_de_unfold, if_neg (by rw [hns]; norm_num),
      if_neg (by rw [hsq]; norm_num)]
    rw [hsq]
    have : |(Vec3.mk 3 4 0).y - (HorizontalPlane.mk 0 ⟨0, 0, 0⟩).y| = 4 := by
      show |(4 : ℝ) - 0| = 4; rw [abs_of_nonneg] <;> norm_num
    rw [this]; norm_num
  exact ⟨hcomp, plane_distance_estimate_nonneg ⟨0, ⟨0, 0, 0⟩⟩ ⟨3, 4, 0⟩ _ hcomp⟩

/-! ### C6: sphere normal -/

/-- C6: for every query point distinct from the centre,
`Sphere::get_normal(p)` equals `(p − centre)/‖p − centre‖` and has unit
length. -/
theorem sphere_get_normal_spec (s : Sphere) (p : Vec3) (h : p ≠ s.centre) :
    s.get_normal p = Vec3.smul ((p - s.centre).norm)⁻¹ (p - s.centre) ∧
    (s.get_normal p).norm = 1 := by
  have hd : p - s.centre ≠ ⟨0, 0, 0⟩ := fun he => h (Vec3.sub_eq_zero_iff.mp he)
  constructor
  · unfold Sphere.get_normal Vec3.normalize Vec3.smul
    simp only [Vec3.mk.injEq]
    exact ⟨div_eq_inv_mul _ _, div_eq_inv_mul _ _, div_eq_inv_mul _ _⟩
  · exact Vec3.norm_normalize hd

/-- Witness for C6 at the unit sphere centred at the origin and the point
`(3, 0, 0)`. -/
theorem sphere_get_normal_spec_witness :
    Vec3.mk 3 0 0 ≠ (Sphere.mk ⟨0, 0, 0⟩ 1 ⟨0, 0, 0⟩).centre ∧
    ((Sphere.mk ⟨0, 0, 0⟩ 1 ⟨0, 0, 0⟩).get_normal ⟨3, 0, 0⟩).norm = 1 := by
  have hne : Vec3.mk 3 0 0 ≠ (Sphere.mk ⟨0, 0, 0⟩ 1 ⟨0, 0, 0⟩).centre := by
    intro hc
    have hx := congrArg Vec3.x hc
    norm_num at hx
  exact ⟨hne, (sphere_get_normal_spec ⟨⟨0, 0, 0⟩, 1, ⟨0, 0, 0⟩⟩ ⟨3, 0, 0⟩ hne).2⟩

/-! ### C2: cube normal -/

/-- C2: for every query point distinct from the cube's centre, the cube's
normal is the positive unit vector along the axis of (strictly) largest
absolute component of `normalize(p − centre)`, with the other two components
zero — the nonzero component is `+1` regardless of the side of the cube; in
particular the cube of half-extent `1` at the origin yields `(1, 0, 0)` both
at `(3, 0, 0)` and at `(−3, 0, 0)`. -/
theorem cube_get_normal_spec (c : AxisAlignedCube) (p : Vec3)
    (h : p ≠ c.centre) :
    ((|((p - c.centre).normalize).x| > |((p - c.centre).normalize).y| →
        |((p - c.centre).normalize).x| > |((p - c.centre).normalize).z| →
        c.get_normal p = ⟨1, 0, 0⟩) ∧
      (|((p - c.centre).normalize).y| > |((p - c.centre).normalize).x| →
        |((p - c.centre).normalize).y| > |((p - c.centre).normalize).z| →
        c.get_normal p = ⟨0, 1, 0⟩) ∧
      (|((p - c.centre).normalize).z| > |((p - c.centre).normalize).x| →
        |((p - c.centre).normalize).z| > |((p - c.centre).normalize).y| →
        c.get_normal p = ⟨0, 0, 1⟩)) ∧
    AxisAlignedCube.get_normal ⟨⟨0, 0, 0⟩, 1, ⟨0, 0, 0⟩⟩ ⟨3, 0, 0⟩ = ⟨1, 0, 0⟩ ∧
    AxisAlignedCube.get_normal ⟨⟨0, 0, 0⟩, 1, ⟨0, 0, 0⟩⟩ ⟨-3, 0, 0⟩ = ⟨1, 0, 0⟩ := by
  refine ⟨⟨?_, ?_, ?_⟩, ?_, ?_⟩
  · intro h1 h2
    rw [cube_gn_unfold]
    unfold Vec3.iamax
    rw [if_neg (not_lt.mpr h1.le), if_neg (not_lt.mpr h2.le)]
    rfl
  · intro h1 h2
    rw [cube_gn_unfold]
    unfold Vec3.iamax
    rw [if_pos h1, if_neg (not_lt.mpr h2.le)]
    rfl
  · intro h1 h2
    rw [cube_gn_unfold]
    unfold Vec3.iamax
    by_cases hxy : |((p - c.centre).normalize).y| > |((p - c.centre).normalize).x|
    · rw [if_pos hxy, if_pos h2]
      rfl
    · rw [if_neg hxy, if_pos h1]
      rfl
  · rw [cube_gn_unfold]
    have hsub : Vec3.mk 3 0 0 - (AxisAlignedCube.mk ⟨0, 0, 0⟩ 1 ⟨0, 0, 0⟩).centre
        = ⟨3, 0, 0⟩ := by
      rw [Vec3.sub_def]; norm_num
    rw [hsub]
    have hn : (Vec3.mk 3 0 0).norm = 3 := by
      unfold Vec3.norm
      exact sqrt_eq_of_sq _ (by norm_num) (by unfold Vec3.normSq; norm_num)
    have hu : (Vec3.mk 3 0 0).normalize = ⟨1, 0, 0⟩ := by
      unfold Vec3.normalize
      rw [hn]
      norm_num
    rw [hu]
    unfold Vec3.iamax
    rw [if_neg (by norm_num), if_neg (by norm_num)]
    rfl
  · rw [cube_gn_unfold]
    have hsub : Vec3.mk (-3) 0 0 - (AxisAlignedCube.mk ⟨0, 0, 0⟩ 1 ⟨0, 0, 0⟩).centre
        = ⟨-3, 0, 0⟩ := by
      rw [Vec3.sub_def]; norm_num
    rw [hsub]
    have hn : (Vec3.mk (-3) 0 0).norm = 3 := by
      unfold Vec3.norm
      exact sqrt_eq_of_sq _ (by norm_num) (by unfold Vec3.normSq; norm_num)
    have hu : (Vec3.mk (-3) 0 0).normalize = ⟨-1, 0, 0⟩ := by
      unfold Vec3.normalize
      rw [hn]
      norm_num
    rw [hu]
    unfold Vec3.iamax
    rw [if_neg (by norm_num), if_neg (by norm_num)]
    rfl

/-- Witness for C2: the example cube queried at `(3, 0, 0)`. -/
theorem cube_get_normal_spec_witness :
    Vec3.mk 3 0 0 ≠ (AxisAlignedCube.mk ⟨0, 0, 0⟩ 1 ⟨0, 0, 0⟩).centre ∧
    AxisAlignedCube.get_normal ⟨⟨0, 0, 0⟩, 1, ⟨0, 0, 0⟩⟩ ⟨3, 0, 0⟩ = ⟨1, 0, 0⟩ := by
  have hne : Vec3.mk 3 0 0 ≠ (AxisAlignedCube.mk ⟨0, 0, 0⟩ 1 ⟨0, 0, 0⟩).centre := by
    intro hc
    have hx := congrArg Vec3.x hc
    norm_num at hx
  exact ⟨hne, (cube_get_normal_spec ⟨⟨0, 0, 0⟩, 1, ⟨0, 0, 0⟩⟩ ⟨3, 0, 0⟩ hne).2.1⟩

/-! ### C4: cube distance estimate -/

theorem cube_de_unfold (c : AxisAlignedCube) (p : Vec3) :
    c.distance_estimate p =
      Real.sqrt (max 0 (|p.x - c.centre.x| - c.size) ^ 2 +
        max 0 (|p.y - c.centre.y| - c.size) ^ 2 +
        max 0 (|p.z - c.centre.z| - c.size) ^ 2) := rfl

theorem clampOffset_abs_le (d s : ℝ) (hs : 0 ≤ s) :
    |max (-s) (min d s)| ≤ s := by
  rw [abs_le]
  exact ⟨le_max_left _ _, max_le (by linarith) (min_le_right _ _)⟩

theorem clampOffset_dist (d s : ℝ) (hs : 0 ≤ s) :
    |d - max (-s) (min d s)| = max 0 (|d| - s) := by
  rcases le_total d (-s) with h1 | h1
  · have hds : d ≤ s := le_trans h1 (by linarith)
    rw [min_eq_left hds, max_eq_left h1,
      abs_of_nonpos (by linarith : d - -s ≤ 0),
      abs_of_nonpos (by linarith : d ≤ 0),
      max_eq_right (by linarith : (0 : ℝ) ≤ -d - s)]
    ring
  · rcases le_total d s with h2 | h2
    · rw [min_eq_left h2, max_eq_right h1, sub_self, abs_zero]
      have habs : |d| ≤ s := abs_le.mpr ⟨by linarith, h2⟩
      rw [max_eq_left (by linarith)]
    · rw [min_eq_right h2, max_eq_right (by linarith : -s ≤ s),
        abs_of_nonneg (by linarith : (0 : ℝ) ≤ d - s),
        abs_of_nonneg (by linarith : (0 : ℝ) ≤ d),
        max_eq_right (by linarith : (0 : ℝ) ≤ d - s)]

theorem coord_clearance_le (a b s : ℝ) (hb : |b| ≤ s) :
    max 0 (|a| - s) ≤ |a - b| := by
  have h1 : |a| - |b| ≤ |a - b| := abs_sub_abs_le_abs_sub a b
  exact max_le (abs_nonneg _) (by linarith)

/-- C4: `AxisAlignedCube::distance_estimate(p)` equals the component-wise
clearance formula `sqrt(Σ max(0, |dᵢ| − size)²)` for `d = p − centre`, is a
lower bound on the distance from `p` to every point of the box, is attained
at some point of the box (hence is the exact Euclidean distance to the box),
and is `0` for every point inside or on the box; in particular the cube of
half-extent `1` at the origin gives `1` at `(2, 0, 0)` and `0` at
`(1/2, 1/2, 1/2)`. -/
theorem cube_distance_estimate_spec (c : AxisAlignedCube) (p : Vec3)
    (hs : 0 ≤ c.size) :
    c.distance_estimate p =
      Real.sqrt (max 0 (|p.x - c.centre.x| - c.size) ^ 2 +
        max 0 (|p.y - c.centre.y| - c.size) ^ 2 +
        max 0 (|p.z - c.centre.z| - c.size) ^ 2) ∧
    (∀ q : Vec3, c.contains q → c.distance_estimate p ≤ (p - q).norm) ∧
    (∃ q : Vec3, c.contains q ∧ (p - q).norm = c.distance_estimate p) ∧
    (c.contains p → c.distance_estimate p = 0) ∧
    AxisAlignedCube.distance_estimate ⟨⟨0, 0, 0⟩, 1, ⟨0, 0, 0⟩⟩ ⟨2, 0, 0⟩ = 1 ∧
    AxisAlignedCube.distance_estimate ⟨⟨0, 0, 0⟩, 1, ⟨0, 0, 0⟩⟩
      ⟨1 / 2, 1 / 2, 1 / 2⟩ = 0 := by
  refine ⟨cube_de_unfold c p, ?_, ?_, ?_, ?_, ?_⟩
  · intro q hq
    obtain ⟨hqx, hqy, hqz⟩ := hq
    rw [cube_de_unfold]
    unfold Vec3.norm Vec3.normSq
    simp only [Vec3.sub_x, Vec3.sub_y, Vec3.sub_z]
    apply Real.sqrt_le_sqrt
    have hx : max 0 (|p.x - c.centre.x| - c.size) ≤ |p.x - q.x| := by
      have h1 := coord_clearance_le (p.x - c.centre.x) (q.x - c.centre.x)
        c.size hqx
      have h2 : p.x - c.centre.x - (q.x - c.centre.x) = p.x - q.x := by ring
      rwa [h2] at h1
    have hy : max 0 (|p.y - c.centre.y| - c.size) ≤ |p.y - q.y| := by
      have h1 := coord_clearance_le (p.y - c.centre.y) (q.y - c.centre.y)
        c.size hqy
      have h2 : p.y - c.centre.y - (q.y - c.centre.y) = p.y - q.y := by ring
      rwa [h2] at h1
    have hz : max 0 (|p.z - c.centre.z| - c.size) ≤ |p.z - q.z| := by
      have h1 := coord_clearance_le (p.z - c.centre.z) (q.z - c.centre.z)
        c.size hqz
      have h2 : p.z - c.centre.z - (q.z - c.centre.z) = p.z - q.z := by ring
      rwa [h2] at h1
    have hx2 : max 0 (|p.x - c.centre.x| - c.size) ^ 2 ≤ (p.x - q.x) ^ 2 := by
      have := pow_le_pow_left₀ (le_max_left 0 _) hx 2
      rwa [sq_abs] at this
    have hy2 : max 0 (|p.y - c.centre.y| - c.size) ^ 2 ≤ (p.y - q.y) ^ 2 := by
      have := pow_le_pow_left₀ (le_max_left 0 _) hy 2
      rwa [sq_abs] at this
    have hz2 : max 0 (|p.z - c.centre.z| - c.size) ^ 2 ≤ (p.z - q.z) ^ 2 := by
      have := pow_le_pow_left₀ (le_max_left 0 _) hz 2
      rwa [sq_abs] at this
    linarith
  · refine ⟨⟨c.centre.x + max (-c.size) (min (p.x - c.centre.x) c.size),
      c.centre.y + max (-c.size) (min (p.y - c.centre.y) c.size),
      c.centre.z + max (-c.size) (min (p.z - c.centre.z) c.size)⟩,
      ⟨?_, ?_, ?_⟩, ?_⟩
    · rw [show c.centre.x + max (-c.size) (min (p.x - c.centre.x) c.size)
          - c.centre.x = max (-c.size) (min (p.x - c.centre.x) c.size) by ring]
      exact clampOffset_abs_le _ _ hs
    · rw [show c.centre.y + max (-c.size) (min (p.y - c.centre.y) c.size)
          - c.centre.y = max (-c.size) (min (p.y - c.centre.y) c.size) by ring]
      exact clampOffset_abs_le _ _ hs
    · rw [show c.centre.z + max (-c.size) (min (p.z - c.centre.z) c.size)
          - c.centre.z = max (-c.size) (min (p.z - c.centre.z) c.size) by ring]
      exact clampOffset_abs_le _ _ hs
    · rw [cube_de_unfold]
      unfold Vec3.norm Vec3.normSq
      simp only [Vec3.sub_x, Vec3.sub_y, Vec3.sub_z]
      congr 1
      have ex : p.x - (c.centre.x + max (-c.size) (min (p.x - c.centre.x) c.size))
          = p.x - c.centre.x - max (-c.size) (min (p.x - c.centre.x) c.size) := by
        ring
      have ey : p.y - (c.centre.y + max (-c.size) (min (p.y - c.centre.y) c.size))
          = p.y - c.centre.y - max (-c.size) (min (p.y - c.centre.y) c.size) := by
        ring
      have ez : p.z - (c.centre.z + max (-c.size) (min (p.z - c.centre.z) c.size))
          = p.z - c.centre.z - max (-c.size) (min (p.z - c.centre.z) c.size) := by
        ring
      have hx2 : (p.x - c.centre.x
          - max (-c.size) (min (p.x - c.centre.x) c.size)) ^ 2
          = max 0 (|p.x - c.centre.x| - c.size) ^ 2 := by
        rw [← sq_abs, clampOffset_dist _ _ hs]
      have hy2 : (p.y - c.centre.y
          - max (-c.size) (min (p.y - c.centre.y) c.size)) ^ 2
          = max 0 (|p.y - c.centre.y| - c.size) ^ 2 := by
        rw [← sq_abs, clampOffset_dist _ _ hs]
      have hz2 : (p.z - c.centre.z
          - max (-c.size) (min (p.z - c.centre.z) c.size)) ^ 2
          = max 0 (|p.z - c.centre.z| - c.size) ^ 2 := by
        rw [← sq_abs, clampOffset_dist _ _ hs]
      rw [ex, ey, ez, hx2, hy2, hz2]
  · intro hp
    obtain ⟨hpx, hpy, hpz⟩ := hp
    rw [cube_de_unfold,
      max_eq_left (by linarith : |p.x - c.centre.x| - c.size ≤ 0),
      max_eq_left (by linarith : |p.y - c.centre.y| - c.size ≤ 0),
      max_eq_left (by linarith : |p.z - c.centre.z| - c.size ≤ 0)]
    norm_num [Real.sqrt_zero]
  · rw [cube_de_unfold]
    show Real.sqrt (max 0 (|(2 : ℝ) - 0| - 1) ^ 2 +
      max 0 (|(0 : ℝ) - 0| - 1) ^ 2 + max 0 (|(0 : ℝ) - 0| - 1) ^ 2) = 1
    norm_num [abs_of_nonneg, Real.sqrt_one]
  · rw [cube_de_unfold]
    show Real.sqrt (max 0 (|(1 / 2 : ℝ) - 0| - 1) ^ 2 +
      max 0 (|(1 / 2 : ℝ) - 0| - 1) ^ 2 + max 0 (|(1 / 2 : ℝ) - 0| - 1) ^ 2) = 0
    norm_num [abs_of_nonneg, Real.sqrt_zero]

/-- Witness for C4: the example cube of half-extent `1` at the origin and the
outside point `(2, 0, 0)`. -/
theorem cube_distance_estimate_spec_witness :
    (0 : ℝ) ≤ (AxisAlignedCube.mk ⟨0, 0, 0⟩ 1 ⟨0, 0, 0⟩).size ∧
    AxisAlignedCube.distance_estimate ⟨⟨0, 0, 0⟩, 1, ⟨0, 0, 0⟩⟩ ⟨2, 0, 0⟩ = 1 := by
  have hs : (0 : ℝ) ≤ (AxisAlignedCube.mk ⟨0, 0, 0⟩ 1 ⟨0, 0, 0⟩).size := by
    show (0 : ℝ) ≤ 1
    norm_num
  exact ⟨hs,
    (cube_distance_estimate_spec ⟨⟨0, 0, 0⟩, 1, ⟨0, 0, 0⟩⟩ ⟨2, 0, 0⟩ hs).2.2.2.2.1⟩

/-! ### C9: queries are deterministic and depend only on the fields -/

/-- C9: every query operation (`distance_estimate`, `get_normal`,
`get_color_ref`, `get_type_name`, `get_reflectance`) of every variant is a
pure function of the object's fields and the query point: two objects with
equal fields give equal results at every point (and hence two calls with the
same object and point give the same result; the embedding is functional, so
no call can mutate the object). -/
theorem object_queries_deterministic
    (s1 s2 : Sphere) (pl1 pl2 : HorizontalPlane) (c1 c2 : AxisAlignedCube)
    (p : Vec3)
    (hs1 : s1.centre = s2.centre) (hs2 : s1.radius = s2.radius)
    (hs3 : s1.color = s2.color)
    (hp1 : pl1.y = pl2.y) (hp2 : pl1.color = pl2.color)
    (hc1 : c1.centre = c2.centre) (hc2 : c1.size = c2.size)
    (hc3 : c1.color = c2.color) :
    (s1.distance_estimate p = s2.distance_estimate p ∧
      s1.get_normal p = s2.get_normal p ∧
      s1.get_color_ref = s2.get_color_ref ∧
      s1.get_type_name = s2.get_type_name ∧
      s1.get_reflectance = s2.get_reflectance) ∧
    (pl1.distance_estimate p = pl2.distance_estimate p ∧
      pl1.get_normal p = pl2.get_normal p ∧
      pl1.get_color_ref = pl2.get_color_ref ∧
      pl1.get_type_name = pl2.get_type_name ∧
      pl1.get_reflectance = pl2.get_reflectance) ∧
    (c1.distance_estimate p = c2.distance_estimate p ∧
      c1.get_normal p = c2.get_normal p ∧
      c1.get_color_ref = c2.get_color_ref ∧
      c1.get_type_name = c2.get_type_name ∧
      c1.get_reflectance = c2.get_reflectance) := by
  have hs : s1 = s2 := by
    cases s1; cases s2; simp_all
  have hp : pl1 = pl2 := by
    cases pl1; cases pl2; simp_all
  have hc : c1 = c2 := by
    cases c1; cases c2; simp_all
  subst hs hp hc
  exact ⟨⟨rfl, rfl, rfl, rfl, rfl⟩, ⟨rfl, rfl, rfl, rfl, rfl⟩,
    rfl, rfl, rfl, rfl, rfl⟩

/-- Witness for C9 at two field-identical spheres, planes and cubes and the
point `(1, 2, 3)`. -/
theorem object_queries_deterministic_witness :
    (Sphere.mk ⟨0, 0, 0⟩ 1 ⟨0, 0, 0⟩).distance_estimate ⟨1, 2, 3⟩ =
      (Sphere.mk ⟨0, 0, 0⟩ 1 ⟨0, 0, 0⟩).distance_estimate ⟨1, 2, 3⟩ ∧
    (HorizontalPlane.mk 0 ⟨0, 0, 0⟩).get_normal ⟨1, 2, 3⟩ =
      (HorizontalPlane.mk 0 ⟨0, 0, 0⟩).get_normal ⟨1, 2, 3⟩ := by
  have h := object_queries_deterministic
    ⟨⟨0, 0, 0⟩, 1, ⟨0, 0, 0⟩⟩ ⟨⟨0, 0, 0⟩, 1, ⟨0, 0, 0⟩⟩
    ⟨0, ⟨0, 0, 0⟩⟩ ⟨0, ⟨0, 0, 0⟩⟩
    ⟨⟨0, 0, 0⟩, 1, ⟨0, 0, 0⟩⟩ ⟨⟨0, 0, 0⟩, 1, ⟨0, 0, 0⟩⟩
    ⟨1, 2, 3⟩ rfl rfl rfl rfl rfl rfl rfl rfl
  exact ⟨h.1.1, h.2.1.2.1⟩
